import Mathlib

/-!
Verification of the data-processor-service ingestion pipeline.

We give a shallow embedding of the core of the service:
`src/data-processor-service/src/processor.rs` (`DataProcessor::process_sensor_data`
and its `ProcessingStats`), `src/data-processor-service/src/database.rs`
(`Database::insert_sensor_reading` / `insert_batch_sensor_readings`) and
`src/data-processor-service/src/rabbitmq.rs` (the dispatch of
`RabbitMQConsumer::consume_messages` and the confirmation match of
`RabbitMQProducer::send_sensor_data`).

Modelling choices, shared by every definition below:

* Timestamps (`chrono::DateTime<Utc>` obtained from `chrono::Utc::now()`) are
  modelled by a natural-number clock stored in the world state; every call of
  `now` returns the current clock value and advances it, so consecutive
  readings of the clock are strictly increasing, the standard model of a
  monotone wall clock.
* JSON payloads (`serde_json::Value`) are opaque to the core, so every
  definition is parametric in a payload type `J`.
* The database is external: whether one `INSERT` round-trip succeeds is decided
  by an oracle `Nat → Bool` indexed by the number of insert attempts made so
  far, and successfully inserted rows accumulate in the world state.  The
  `Uuid::new_v4()` identity of a row is modelled by the (fresh) attempt index.
* `u64` counters are modelled by `Nat`; a Rust panic (the `chunks(0)` assert)
  is modelled by `Option.none`; `anyhow::Result` is modelled by `Except`.
-/

namespace DataProcessorService

/-- `SensorData` from `models.rs`: one raw reading of a delivery body. -/
structure SensorData (J : Type) where
  «type» : String
  name : String
  payload : J
  deriving Repr, DecidableEq

/-- `SensorReadingInput` from `models.rs`: a normalized reading handed to the
database collaborator. -/
structure SensorReadingInput (J : Type) where
  sensor_type : String
  sensor_name : String
  payload : J
  timestamp : Nat
  deriving Repr, DecidableEq

/-- `SensorReading` from `models.rs`: a persisted row, with identity and write
timestamp assigned by the database. -/
structure SensorReading (J : Type) where
  id : Nat
  sensor_type : String
  sensor_name : String
  payload : J
  timestamp : Nat
  created_at : Nat
  deriving Repr, DecidableEq

/-- The input view of a persisted row (forgetting `id` and `created_at`). -/
def SensorReading.toInput {J : Type} (r : SensorReading J) : SensorReadingInput J :=
  { sensor_type := r.sensor_type
    sensor_name := r.sensor_name
    payload := r.payload
    timestamp := r.timestamp }

/-- `ProcessingStats` from `processor.rs`. -/
structure ProcessingStats where
  processed_messages : Nat
  failed_messages : Nat
  last_processed_at : Option Nat
  deriving Repr, DecidableEq

/-- `ProcessingStats::default()` (`#[derive(Default)]`): zero counters, no
timestamp. -/
def ProcessingStats.default : ProcessingStats :=
  { processed_messages := 0
    failed_messages := 0
    last_processed_at := none }

/-- The state of the database collaborator: the persisted rows and the number
of single-insert attempts made so far (the oracle index). -/
structure DbState (J : Type) where
  rows : List (SensorReading J)
  attempts : Nat
  deriving Repr, DecidableEq

/-- The world threaded through the pipeline: the monotone clock, the shared
`ProcessingStats`, and the database state. -/
structure World (J : Type) where
  clock : Nat
  stats : ProcessingStats
  db : DbState J
  deriving Repr, DecidableEq

/-- `chrono::Utc::now()`: read the clock and advance it. -/
def now {J : Type} (w : World J) : Nat × World J :=
  (w.clock, { w with clock := w.clock + 1 })

/-- `Database::insert_sensor_reading` from `database.rs`: draw a fresh id,
take the write timestamp, run one `INSERT` round-trip whose success is decided
by the oracle at the current attempt index; on success the returned row is
appended to the store. -/
def insert_sensor_reading {J : Type} (oracle : Nat → Bool)
    (data : SensorReadingInput J) (w : World J) :
    Except Unit (SensorReading J) × World J :=
  let id := w.db.attempts
  let (t, w1) := now w
  if oracle w.db.attempts then
    let row : SensorReading J :=
      { id := id
        sensor_type := data.sensor_type
        sensor_name := data.sensor_name
        payload := data.payload
        timestamp := data.timestamp
        created_at := t }
    (Except.ok row,
      { w1 with db := { rows := w1.db.rows ++ [row], attempts := w1.db.attempts + 1 } })
  else
    (Except.error (),
      { w1 with db := { w1.db with attempts := w1.db.attempts + 1 } })

/-- `Database::insert_batch_sensor_readings` from `database.rs`: insert the
inputs one at a time, in order, returning at the first failing insert (the `?`
operator); rows inserted before the failure stay persisted. -/
def insert_batch_sensor_readings {J : Type} (oracle : Nat → Bool)
    (data_batch : List (SensorReadingInput J)) (w : World J) :
    Except Unit (List (SensorReading J)) × World J :=
  match data_batch with
  | [] => (Except.ok [], w)
  | data :: rest =>
    match insert_sensor_reading oracle data w with
    | (Except.ok row, w1) =>
      match insert_batch_sensor_readings oracle rest w1 with
      | (Except.ok rows, w2) => (Except.ok (row :: rows), w2)
      | (Except.error e, w2) => (Except.error e, w2)
    | (Except.error e, w1) => (Except.error e, w1)

/-- The normalization loop of `DataProcessor::process_sensor_data`
(`processor.rs`): map each `SensorData` to a `SensorReadingInput`, stamping
each with the clock instant at which it is normalized. -/
def normalizeAll {J : Type} :
    List (SensorData J) → World J → List (SensorReadingInput J) × World J
  | [], w => ([], w)
  | data :: rest, w =>
    let (t, w1) := now w
    let input : SensorReadingInput J :=
      { sensor_type := data.«type»
        sensor_name := data.name
        payload := data.payload
        timestamp := t }
    let (inputs, w2) := normalizeAll rest w1
    (input :: inputs, w2)

/-- `slice::chunks` for a positive chunk size: consecutive chunks of `k`
elements, the last one possibly shorter. -/
def chunksPos {α : Type} (k : Nat) (hk : 0 < k) : List α → List (List α)
  | [] => []
  | x :: xs => ((x :: xs).take k) :: chunksPos k hk ((x :: xs).drop k)
termination_by l => l.length
decreasing_by
  simp only [List.length_drop, List.length_cons]
  omega

/-- `slice::chunks`, including its panic: `chunks(0)` asserts a non-zero chunk
size, modelled as `none`. -/
def chunks {α : Type} (k : Nat) (xs : List α) : Option (List (List α)) :=
  if hk : 0 < k then some (chunksPos k hk xs) else none

/-- The per-chunk body of the processing loop of
`DataProcessor::process_sensor_data`: call `insert_batch_sensor_readings` on
the chunk; on success add the chunk length to `processed_messages` and set
`last_processed_at` to now; on failure add the chunk length to
`failed_messages`. -/
def chunkStep {J : Type} (oracle : Nat → Bool) (w : World J)
    (chunk : List (SensorReadingInput J)) : World J :=
  match insert_batch_sensor_readings oracle chunk w with
  | (Except.ok _, w1) =>
    let (t, w2) := now w1
    { w2 with stats :=
        { w2.stats with
            processed_messages := w2.stats.processed_messages + chunk.length
            last_processed_at := some t } }
  | (Except.error _, w1) =>
    { w1 with stats :=
        { w1.stats with
            failed_messages := w1.stats.failed_messages + chunk.length } }

/-- The chunk loop of `DataProcessor::process_sensor_data`: process the chunks
in order. -/
def processChunks {J : Type} (oracle : Nat → Bool)
    (cs : List (List (SensorReadingInput J))) (w : World J) : World J :=
  cs.foldl (chunkStep oracle) w

/-- `DataProcessor::process_sensor_data` from `processor.rs`: normalize all
readings, split them into chunks of `batch_size`, and run the chunk loop.
The function itself always returns `Ok(())`; the only way it can fail to
complete is the `chunks(0)` panic, modelled as `none`. -/
def process_sensor_data {J : Type} (oracle : Nat → Bool)
    (sensor_data : List (SensorData J)) (batch_size : Nat) (w : World J) :
    Option (World J) :=
  let (inputs, w1) := normalizeAll sensor_data w
  match chunks batch_size inputs with
  | none => none
  | some cs => some (processChunks oracle cs w1)

/-- The disposition `RabbitMQConsumer::consume_messages` gives a delivery. -/
inductive Disposition where
  | ack
  | reject
  deriving Repr, DecidableEq

/-- The per-delivery body of `RabbitMQConsumer::consume_messages`
(`rabbitmq.rs`): deserialize the body; on success run the handler (a handler
error is only logged) and acknowledge; on failure reject without invoking the
handler. -/
def consume_step {J B : Type} (deserialize : B → Option (List (SensorData J)))
    (handler : List (SensorData J) → World J → Except Unit Unit × World J)
    (body : B) (w : World J) : Disposition × World J :=
  match deserialize body with
  | some sensor_data =>
    let (_, w1) := handler sensor_data w
    (Disposition.ack, w1)
  | none => (Disposition.reject, w)

/-- `lapin::publisher_confirm::Confirmation`, the broker's answer to a
publish. -/
inductive Confirmation where
  | Ack
  | Nack
  | NotRequested
  deriving Repr, DecidableEq

/-- The confirmation match of `RabbitMQProducer::send_sensor_data`
(`rabbitmq.rs`): `Ack` and `NotRequested` are success, `Nack` is the
"not acknowledged" error. -/
def send_sensor_data_outcome : Confirmation → Except String Unit
  | Confirmation.Ack => Except.ok ()
  | Confirmation.Nack => Except.error "Sensor data was not acknowledged"
  | Confirmation.NotRequested => Except.ok ()

/-- A fresh service state: the clock at zero, `ProcessingStats::default()`, an
empty store.  Used as the concrete state of the witness instances. -/
def initWorld : World Nat :=
  { clock := 0, stats := ProcessingStats.default, db := { rows := [], attempts := 0 } }

/-- A one-reading sample delivery, as in the spec's first scenario. -/
def sampleData : List (SensorData Nat) :=
  [{ «type» := "energy", name := "m1", payload := 125 }]

/-- A two-reading sample delivery, for the batch-failure witnesses. -/
def sampleData2 : List (SensorData Nat) :=
  [{ «type» := "energy", name := "m1", payload := 125 },
   { «type» := "motion", name := "m2", payload := 1 }]

/-- A two-input sample batch of normalized readings, for the batch-failure
witnesses. -/
def sampleBatch : List (SensorReadingInput Nat) :=
  [{ sensor_type := "energy", sensor_name := "m1", payload := 125, timestamp := 0 },
   { sensor_type := "motion", sensor_name := "m2", payload := 1, timestamp := 1 }]

/-- A database oracle that accepts every insert. -/
def oracleOk : Nat → Bool := fun _ => true

/-- A database oracle that accepts exactly the first insert attempt. -/
def oracleFirstOnly : Nat → Bool := fun n => n == 0

section Lemmas

variable {J B : Type}

theorem insert_sensor_reading_stats (oracle : Nat → Bool)
    (data : SensorReadingInput J) (w : World J) :
    ((insert_sensor_reading oracle data w).2).stats = w.stats := by
  unfold insert_sensor_reading now
  by_cases h : oracle w.db.attempts <;> simp [h]

theorem insert_sensor_reading_clock (oracle : Nat → Bool)
    (data : SensorReadingInput J) (w : World J) :
    ((insert_sensor_reading oracle data w).2).clock = w.clock + 1 := by
  unfold insert_sensor_reading now
  by_cases h : oracle w.db.attempts <;> simp [h]

theorem insert_batch_stats (oracle : Nat → Bool) :
    ∀ (b : List (SensorReadingInput J)) (w : World J),
      ((insert_batch_sensor_readings oracle b w).2).stats = w.stats
  | [], _ => rfl
  | data :: rest, w => by
    unfold insert_batch_sensor_readings
    rcases h1 : insert_sensor_reading oracle data w with ⟨r1, w1⟩
    have hs1 : w1.stats = w.stats := by
      have h := insert_sensor_reading_stats oracle data w
      rw [h1] at h; exact h
    cases r1 with
    | ok row =>
      rcases h2 : insert_batch_sensor_readings oracle rest w1 with ⟨r2, w2⟩
      have hs2 : w2.stats = w1.stats := by
        have h := insert_batch_stats oracle rest w1
        rw [h2] at h; exact h
      cases r2 <;> simp [h2, hs2, hs1]
    | error e => simpa using hs1

theorem insert_batch_clock_mono (oracle : Nat → Bool) :
    ∀ (b : List (SensorReadingInput J)) (w : World J),
      w.clock ≤ ((insert_batch_sensor_readings oracle b w).2).clock
  | [], _ => Nat.le_refl _
  | data :: rest, w => by
    unfold insert_batch_sensor_readings
    rcases h1 : insert_sensor_reading oracle data w with ⟨r1, w1⟩
    have hc1 : w1.clock = w.clock + 1 := by
      have h := insert_sensor_reading_clock oracle data w
      rw [h1] at h; exact h
    cases r1 with
    | ok row =>
      rcases h2 : insert_batch_sensor_readings oracle rest w1 with ⟨r2, w2⟩
      have hc2 : w1.clock ≤ w2.clock := by
        have h := insert_batch_clock_mono oracle rest w1
        rw [h2] at h; exact h
      cases r2 <;> (simp only [h2]; omega)
    | error e => simp only []; omega

theorem chunkStep_sum (oracle : Nat → Bool) (w : World J)
    (chunk : List (SensorReadingInput J)) :
    (chunkStep oracle w chunk).stats.processed_messages
        + (chunkStep oracle w chunk).stats.failed_messages
      = w.stats.processed_messages + w.stats.failed_messages + chunk.length := by
  unfold chunkStep
  rcases h : insert_batch_sensor_readings oracle chunk w with ⟨r, w1⟩
  have hs : w1.stats = w.stats := by
    have h2 := insert_batch_stats oracle chunk w
    rw [h] at h2; exact h2
  cases r <;> simp [now, hs] <;> omega

theorem chunkStep_mono (oracle : Nat → Bool) (w : World J)
    (chunk : List (SensorReadingInput J)) :
    w.stats.processed_messages ≤ (chunkStep oracle w chunk).stats.processed_messages
      ∧ w.stats.failed_messages ≤ (chunkStep oracle w chunk).stats.failed_messages := by
  unfold chunkStep
  rcases h : insert_batch_sensor_readings oracle chunk w with ⟨r, w1⟩
  have hs : w1.stats = w.stats := by
    have h2 := insert_batch_stats oracle chunk w
    rw [h] at h2; exact h2
  cases r <;> (simp [now, hs]; try omega)

theorem processChunks_sum (oracle : Nat → Bool) :
    ∀ (cs : List (List (SensorReadingInput J))) (w : World J),
      (processChunks oracle cs w).stats.processed_messages
          + (processChunks oracle cs w).stats.failed_messages
        = w.stats.processed_messages + w.stats.failed_messages
            + (cs.map List.length).sum
  | [], w => by simp [processChunks]
  | c :: rest, w => by
    have hrec := processChunks_sum oracle rest (chunkStep oracle w c)
    have hstep := chunkStep_sum oracle w c
    simp only [processChunks, List.foldl_cons] at hrec ⊢
    simp only [List.map_cons, List.sum_cons]
    omega

theorem processChunks_mono (oracle : Nat → Bool) :
    ∀ (cs : List (List (SensorReadingInput J))) (w : World J),
      w.stats.processed_messages
          ≤ (processChunks oracle cs w).stats.processed_messages
        ∧ w.stats.failed_messages
            ≤ (processChunks oracle cs w).stats.failed_messages
  | [], w => by simp [processChunks]
  | c :: rest, w => by
    have hrec := processChunks_mono oracle rest (chunkStep oracle w c)
    have hstep := chunkStep_mono oracle w c
    simp only [processChunks, List.foldl_cons] at hrec ⊢
    omega

theorem chunksPos_nil {α : Type} (k : Nat) (hk : 0 < k) :
    chunksPos k hk ([] : List α) = [] := by
  rw [chunksPos]

theorem chunksPos_cons {α : Type} (k : Nat) (hk : 0 < k) (x : α) (xs : List α) :
    chunksPos k hk (x :: xs)
      = ((x :: xs).take k) :: chunksPos k hk ((x :: xs).drop k) := by
  rw [chunksPos]

theorem chunksPos_flatten_aux {α : Type} (k : Nat) (hk : 0 < k) :
    ∀ (n : Nat) (xs : List α), xs.length ≤ n →
      (chunksPos k hk xs).flatten = xs := by
  intro n
  induction n with
  | zero =>
    intro xs h
    have : xs = [] := List.eq_nil_of_length_eq_zero (Nat.le_zero.mp h)
    subst this
    simp [chunksPos_nil]
  | succ n ih =>
    intro xs h
    cases xs with
    | nil => simp [chunksPos_nil]
    | cons x t =>
      rw [chunksPos_cons, List.flatten_cons,
        ih ((x :: t).drop k) (by simp [List.length_drop] at h ⊢; omega),
        List.take_append_drop]

theorem chunksPos_flatten {α : Type} (k : Nat) (hk : 0 < k) (xs : List α) :
    (chunksPos k hk xs).flatten = xs :=
  chunksPos_flatten_aux k hk xs.length xs (Nat.le_refl _)

theorem chunksPos_length_le_aux {α : Type} (k : Nat) (hk : 0 < k) :
    ∀ (n : Nat) (xs : List α), xs.length ≤ n →
      ∀ c ∈ chunksPos k hk xs, c.length ≤ k := by
  intro n
  induction n with
  | zero =>
    intro xs h
    have : xs = [] := List.eq_nil_of_length_eq_zero (Nat.le_zero.mp h)
    subst this
    simp [chunksPos_nil]
  | succ n ih =>
    intro xs h c hc
    cases xs with
    | nil => simp [chunksPos_nil] at hc
    | cons x t =>
      rw [chunksPos_cons] at hc
      rcases List.mem_cons.mp hc with h1 | h1
      · subst h1
        simp [List.length_take]
      · exact ih ((x :: t).drop k)
          (by simp [List.length_drop] at h ⊢; omega) c h1

theorem chunksPos_eq_nil_iff {α : Type} (k : Nat) (hk : 0 < k) (xs : List α) :
    chunksPos k hk xs = [] ↔ xs = [] := by
  cases xs with
  | nil => simp [chunksPos_nil]
  | cons x t => simp [chunksPos_cons]

theorem chunksPos_getElem_length_aux {α : Type} (k : Nat) (hk : 0 < k) :
    ∀ (n : Nat) (xs : List α), xs.length ≤ n →
      ∀ (i : Nat) (hi : i + 1 < (chunksPos k hk xs).length),
        ((chunksPos k hk xs)[i]).length = k := by
  intro n
  induction n with
  | zero =>
    intro xs h i hi
    have : xs = [] := List.eq_nil_of_length_eq_zero (Nat.le_zero.mp h)
    subst this
    simp [chunksPos_nil] at hi
  | succ n ih =>
    intro xs h i hi
    cases xs with
    | nil => simp [chunksPos_nil] at hi
    | cons x t =>
      have hcs := chunksPos_cons k hk x t
      rw [hcs] at hi
      simp only [hcs]
      cases i with
      | zero =>
        have hrest : chunksPos k hk ((x :: t).drop k) ≠ [] := by
          intro hnil
          simp [hnil] at hi
        have hdrop : (x :: t).drop k ≠ [] :=
          fun hd => hrest ((chunksPos_eq_nil_iff k hk _).mpr hd)
        have hlen : k < (x :: t).length := by
          by_contra hle
          exact hdrop (List.drop_eq_nil_of_le (by omega))
        simp only [List.length_cons] at hlen
        simp [List.length_take]
        omega
      | succ j =>
        have hj : j + 1 < (chunksPos k hk ((x :: t).drop k)).length := by
          simp at hi
          omega
        have := ih ((x :: t).drop k)
          (by simp [List.length_drop] at h ⊢; omega) j hj
        simpa using this

theorem normalizeAll_length :
    ∀ (sd : List (SensorData J)) (w : World J),
      ((normalizeAll sd w).1).length = sd.length
  | [], _ => rfl
  | d :: rest, w => by
    simp [normalizeAll, now, normalizeAll_length rest]

theorem normalizeAll_stats :
    ∀ (sd : List (SensorData J)) (w : World J),
      ((normalizeAll sd w).2).stats = w.stats
  | [], _ => rfl
  | d :: rest, w => by
    simp [normalizeAll, now, normalizeAll_stats rest]

theorem normalizeAll_db :
    ∀ (sd : List (SensorData J)) (w : World J),
      ((normalizeAll sd w).2).db = w.db
  | [], _ => rfl
  | d :: rest, w => by
    simp [normalizeAll, now, normalizeAll_db rest]

theorem normalizeAll_clock :
    ∀ (sd : List (SensorData J)) (w : World J),
      ((normalizeAll sd w).2).clock = w.clock + sd.length
  | [], _ => rfl
  | d :: rest, w => by
    simp [normalizeAll, now, normalizeAll_clock rest]
    omega

theorem normalizeAll_getElem :
    ∀ (sd : List (SensorData J)) (w : World J) (i : Nat)
      (hi : i < sd.length) (hi2 : i < ((normalizeAll sd w).1).length),
      ((normalizeAll sd w).1)[i]
        = { sensor_type := (sd[i]).«type»
            sensor_name := (sd[i]).name
            payload := (sd[i]).payload
            timestamp := w.clock + i }
  | [], _, i, hi, _ => by simp at hi
  | d :: rest, w, 0, hi, hi2 => by
    simp [normalizeAll, now]
  | d :: rest, w, i + 1, hi, hi2 => by
    have hr : i < rest.length := by simp at hi; omega
    have hr2 : i < ((normalizeAll rest { w with clock := w.clock + 1 }).1).length := by
      rw [normalizeAll_length]; exact hr
    have := normalizeAll_getElem rest { w with clock := w.clock + 1 } i hr hr2
    simp [normalizeAll, now, this]
    omega

theorem insert_batch_ok_of_oracle (oracle : Nat → Bool)
    (hor : ∀ n, oracle n = true) :
    ∀ (b : List (SensorReadingInput J)) (w : World J),
      ∃ rows, (insert_batch_sensor_readings oracle b w).1 = Except.ok rows
  | [], w => ⟨[], rfl⟩
  | d :: rest, w => by
    rcases h1 : insert_sensor_reading oracle d w with ⟨r1, w1⟩
    have : r1 ≠ Except.error () := by
      unfold insert_sensor_reading now at h1
      rw [hor w.db.attempts] at h1
      simp at h1
      simp [← h1.1]
    cases r1 with
    | error e => exact absurd rfl this
    | ok row =>
      rcases insert_batch_ok_of_oracle oracle hor rest w1 with ⟨rows, h2⟩
      rcases h2p : insert_batch_sensor_readings oracle rest w1 with ⟨r2, w2⟩
      rw [h2p] at h2
      simp only [] at h2
      subst h2
      refine ⟨row :: rows, ?_⟩
      simp [insert_batch_sensor_readings, h1, h2p]

theorem chunkStep_ok_stats (oracle : Nat → Bool) (hor : ∀ n, oracle n = true)
    (w : World J) (chunk : List (SensorReadingInput J)) :
    (chunkStep oracle w chunk).stats.processed_messages
        = w.stats.processed_messages + chunk.length
      ∧ (chunkStep oracle w chunk).stats.failed_messages
          = w.stats.failed_messages := by
  unfold chunkStep
  rcases hok : insert_batch_sensor_readings oracle chunk w with ⟨r, w1⟩
  have hs : w1.stats = w.stats := by
    have h2 := insert_batch_stats oracle chunk w
    rw [hok] at h2; exact h2
  rcases insert_batch_ok_of_oracle oracle hor chunk w with ⟨rows, hr⟩
  rw [hok] at hr
  subst hr
  simp [now, hs]

theorem processChunks_ok_stats (oracle : Nat → Bool) (hor : ∀ n, oracle n = true) :
    ∀ (cs : List (List (SensorReadingInput J))) (w : World J),
      (processChunks oracle cs w).stats.processed_messages
          = w.stats.processed_messages + (cs.map List.length).sum
        ∧ (processChunks oracle cs w).stats.failed_messages
            = w.stats.failed_messages
  | [], w => by simp [processChunks]
  | c :: rest, w => by
    have hrec := processChunks_ok_stats oracle hor rest (chunkStep oracle w c)
    have hstep := chunkStep_ok_stats oracle hor w c
    simp only [processChunks, List.foldl_cons] at hrec ⊢
    simp only [List.map_cons, List.sum_cons]
    omega

theorem process_sensor_data_eq (oracle : Nat → Bool)
    (sensor_data : List (SensorData J)) (batch_size : Nat)
    (hk : 0 < batch_size) (w : World J) :
    process_sensor_data oracle sensor_data batch_size w
      = some (processChunks oracle
          (chunksPos batch_size hk ((normalizeAll sensor_data w).1))
          ((normalizeAll sensor_data w).2)) := by
  unfold process_sensor_data
  rcases hN : normalizeAll sensor_data w with ⟨inputs, w1⟩
  have hchunks : chunks batch_size inputs = some (chunksPos batch_size hk inputs) := by
    unfold chunks
    rw [dif_pos hk]
  simp [hchunks]

theorem chunksPos_length_sum {α : Type} (k : Nat) (hk : 0 < k) (xs : List α) :
    ((chunksPos k hk xs).map List.length).sum = xs.length := by
  rw [← List.length_flatten, chunksPos_flatten]

theorem process_ok_stats (oracle : Nat → Bool) (hor : ∀ n, oracle n = true)
    (sensor_data : List (SensorData J)) (batch_size : Nat)
    (hk : 0 < batch_size) (w : World J) :
    ∃ w2, process_sensor_data oracle sensor_data batch_size w = some w2
      ∧ w2.stats.processed_messages
          = w.stats.processed_messages + sensor_data.length
      ∧ w2.stats.failed_messages = w.stats.failed_messages := by
  rw [process_sensor_data_eq oracle sensor_data batch_size hk w]
  refine ⟨_, rfl, ?_, ?_⟩
  · rw [(processChunks_ok_stats oracle hor _ _).1, chunksPos_length_sum,
      normalizeAll_length, normalizeAll_stats]
  · rw [(processChunks_ok_stats oracle hor _ _).2, normalizeAll_stats]

theorem insert_sensor_reading_true (oracle : Nat → Bool)
    (d : SensorReadingInput J) (w : World J)
    (h : oracle w.db.attempts = true) :
    insert_sensor_reading oracle d w
      = (Except.ok
          { id := w.db.attempts
            sensor_type := d.sensor_type
            sensor_name := d.sensor_name
            payload := d.payload
            timestamp := d.timestamp
            created_at := w.clock },
         { clock := w.clock + 1
           stats := w.stats
           db :=
             { rows := w.db.rows ++
                 [{ id := w.db.attempts
                    sensor_type := d.sensor_type
                    sensor_name := d.sensor_name
                    payload := d.payload
                    timestamp := d.timestamp
                    created_at := w.clock }]
               attempts := w.db.attempts + 1 } }) := by
  unfold insert_sensor_reading now
  simp [h]

theorem insert_sensor_reading_false (oracle : Nat → Bool)
    (d : SensorReadingInput J) (w : World J)
    (h : oracle w.db.attempts = false) :
    insert_sensor_reading oracle d w
      = (Except.error (),
         { clock := w.clock + 1
           stats := w.stats
           db := { rows := w.db.rows, attempts := w.db.attempts + 1 } }) := by
  unfold insert_sensor_reading now
  simp [h]

theorem insert_batch_fail_spec (oracle : Nat → Bool) :
    ∀ (batch : List (SensorReadingInput J)) (i : Nat) (w : World J),
      i < batch.length →
      (∀ j, j < i → oracle (w.db.attempts + j) = true) →
      oracle (w.db.attempts + i) = false →
      (insert_batch_sensor_readings oracle batch w).1 = Except.error ()
      ∧ ((insert_batch_sensor_readings oracle batch w).2).db.attempts
          = w.db.attempts + i + 1
      ∧ ∃ newRows, ((insert_batch_sensor_readings oracle batch w).2).db.rows
            = w.db.rows ++ newRows
          ∧ newRows.map SensorReading.toInput = batch.take i
  | [], i, w, hi, _, _ => absurd hi (by simp)
  | d :: rest, 0, w, hi, hok, hfail => by
    have h0 : oracle w.db.attempts = false := by simpa using hfail
    have heq := insert_sensor_reading_false oracle d w h0
    unfold insert_batch_sensor_readings
    rw [heq]
    exact ⟨rfl, rfl, [], by simp, rfl⟩
  | d :: rest, i + 1, w, hi, hok, hfail => by
    have h0 : oracle w.db.attempts = true := by
      have := hok 0 (Nat.succ_pos i)
      simpa using this
    have heq := insert_sensor_reading_true oracle d w h0
    set row0 : SensorReading J :=
      { id := w.db.attempts
        sensor_type := d.sensor_type
        sensor_name := d.sensor_name
        payload := d.payload
        timestamp := d.timestamp
        created_at := w.clock } with hrow0
    set w1 : World J :=
      { clock := w.clock + 1
        stats := w.stats
        db := { rows := w.db.rows ++ [row0], attempts := w.db.attempts + 1 } }
      with hw1
    have hrec := insert_batch_fail_spec oracle rest i w1
      (by simp at hi; omega)
      (by
        intro j hj
        have := hok (j + 1) (by omega)
        simp [hw1]
        rw [show w.db.attempts + 1 + j = w.db.attempts + (j + 1) by omega]
        exact this)
      (by
        simp [hw1]
        rw [show w.db.attempts + 1 + i = w.db.attempts + (i + 1) by omega]
        exact hfail)
    rcases hrec with ⟨herr, hatt, newRows, hrows, htake⟩
    rcases hres : insert_batch_sensor_readings oracle rest w1 with ⟨r2, w2⟩
    rw [hres] at herr hatt hrows
    simp only [] at herr
    subst herr
    unfold insert_batch_sensor_readings
    simp only [heq, hres]
    refine ⟨trivial, by simp [hw1] at hatt ⊢; omega, row0 :: newRows, ?_, ?_⟩
    · simpa [hw1] using hrows
    · simp only [List.map_cons, htake, List.take_succ_cons]
      rfl

end Lemmas

section Claims

/-- C1: for every delivery that deserializes into a reading sequence and every
chunk size at least 1, `process_sensor_data` completes and increases
`processed_messages + failed_messages` by exactly the number of readings in
the delivery: each reading lands in exactly one chunk and each chunk's outcome
is counted exactly once. -/
theorem process_sensor_data_counts_every_reading_once {J : Type}
    (oracle : Nat → Bool) (sensor_data : List (SensorData J))
    (batch_size : Nat) (w : World J) (hbs : 1 ≤ batch_size) :
    ∃ w2, process_sensor_data oracle sensor_data batch_size w = some w2
      ∧ w2.stats.processed_messages + w2.stats.failed_messages
          = w.stats.processed_messages + w.stats.failed_messages
              + sensor_data.length := by
  rw [process_sensor_data_eq oracle sensor_data batch_size hbs w]
  refine ⟨_, rfl, ?_⟩
  rw [processChunks_sum, chunksPos_length_sum, normalizeAll_length,
    normalizeAll_stats]

/-- C1 witness: a concrete one-reading delivery with chunk size 1 from the
fresh service state. -/
theorem process_sensor_data_counts_every_reading_once_witness :
    1 ≤ 1 ∧ ∃ w2, process_sensor_data oracleOk sampleData 1 initWorld = some w2
      ∧ w2.stats.processed_messages + w2.stats.failed_messages
          = initWorld.stats.processed_messages + initWorld.stats.failed_messages
              + sampleData.length :=
  ⟨Nat.le_refl 1,
    process_sensor_data_counts_every_reading_once oracleOk sampleData 1 initWorld
      (Nat.le_refl 1)⟩

/-- C2: for one chunk of the processing loop, a failing
`insert_batch_sensor_readings` call adds exactly the chunk length to
`failed_messages` and leaves `last_processed_at` (and `processed_messages`)
unchanged, while a succeeding call adds exactly the chunk length to
`processed_messages` and sets `last_processed_at` to a timestamp at least its
previous value.  The hypothesis states the clock invariant of every reachable
state: a recorded timestamp is in the past of the clock. -/
theorem chunk_outcome_updates_stats {J : Type} (oracle : Nat → Bool)
    (chunk : List (SensorReadingInput J)) (w : World J)
    (hwf : ∀ p, w.stats.last_processed_at = some p → p < w.clock) :
    ((insert_batch_sensor_readings oracle chunk w).1 = Except.error () →
      (chunkStep oracle w chunk).stats.failed_messages
          = w.stats.failed_messages + chunk.length
        ∧ (chunkStep oracle w chunk).stats.processed_messages
            = w.stats.processed_messages
        ∧ (chunkStep oracle w chunk).stats.last_processed_at
            = w.stats.last_processed_at)
    ∧ (∀ rows, (insert_batch_sensor_readings oracle chunk w).1 = Except.ok rows →
      (chunkStep oracle w chunk).stats.processed_messages
          = w.stats.processed_messages + chunk.length
        ∧ (chunkStep oracle w chunk).stats.failed_messages
            = w.stats.failed_messages
        ∧ ∃ t, (chunkStep oracle w chunk).stats.last_processed_at = some t
            ∧ ∀ p, w.stats.last_processed_at = some p → p ≤ t) := by
  rcases hres : insert_batch_sensor_readings oracle chunk w with ⟨r, w1⟩
  have hs : w1.stats = w.stats := by
    have h2 := insert_batch_stats oracle chunk w
    rw [hres] at h2; exact h2
  have hc : w.clock ≤ w1.clock := by
    have h2 := insert_batch_clock_mono oracle chunk w
    rw [hres] at h2; exact h2
  cases r with
  | error e =>
    constructor
    · intro _
      simp only [chunkStep, hres]
      simp [hs]
    · intro rows hok
      simp at hok
  | ok rows0 =>
    constructor
    · intro herr
      simp at herr
    · intro rows _
      simp only [chunkStep, hres, now]
      refine ⟨by simp [hs], by simp [hs], w1.clock, by simp, ?_⟩
      intro p hp
      have := hwf p hp
      omega

/-- C2 witness: a concrete singleton chunk from the fresh service state, whose
`last_processed_at` is absent so the clock invariant holds vacuously. -/
theorem chunk_outcome_updates_stats_witness :
    (∀ p, initWorld.stats.last_processed_at = some p → p < initWorld.clock)
    ∧ ((insert_batch_sensor_readings oracleOk
          [{ sensor_type := "energy", sensor_name := "m1", payload := (125 : Nat),
             timestamp := 0 }] initWorld).1 = Except.error () →
        (chunkStep oracleOk initWorld
            [{ sensor_type := "energy", sensor_name := "m1", payload := (125 : Nat),
               timestamp := 0 }]).stats.failed_messages
            = initWorld.stats.failed_messages + 1
          ∧ (chunkStep oracleOk initWorld
              [{ sensor_type := "energy", sensor_name := "m1", payload := (125 : Nat),
                 timestamp := 0 }]).stats.processed_messages
              = initWorld.stats.processed_messages
          ∧ (chunkStep oracleOk initWorld
              [{ sensor_type := "energy", sensor_name := "m1", payload := (125 : Nat),
                 timestamp := 0 }]).stats.last_processed_at
              = initWorld.stats.last_processed_at)
    ∧ (∀ rows, (insert_batch_sensor_readings oracleOk
          [{ sensor_type := "energy", sensor_name := "m1", payload := (125 : Nat),
             timestamp := 0 }] initWorld).1 = Except.ok rows →
        (chunkStep oracleOk initWorld
            [{ sensor_type := "energy", sensor_name := "m1", payload := (125 : Nat),
               timestamp := 0 }]).stats.processed_messages
            = initWorld.stats.processed_messages + 1
          ∧ (chunkStep oracleOk initWorld
              [{ sensor_type := "energy", sensor_name := "m1", payload := (125 : Nat),
                 timestamp := 0 }]).stats.failed_messages
              = initWorld.stats.failed_messages
          ∧ ∃ t, (chunkStep oracleOk initWorld
                [{ sensor_type := "energy", sensor_name := "m1", payload := (125 : Nat),
                   timestamp := 0 }]).stats.last_processed_at = some t
              ∧ ∀ p, initWorld.stats.last_processed_at = some p → p ≤ t) := by
  have hwf : ∀ p, initWorld.stats.last_processed_at = some p → p < initWorld.clock := by
    intro p hp
    simp [initWorld, ProcessingStats.default] at hp
  exact ⟨hwf, chunk_outcome_updates_stats oracleOk _ initWorld hwf⟩

/-- C3: a delivery whose body fails to deserialize is rejected, the handler is
not invoked (the step's result is the same for every handler, returning the
state untouched), and the stats are unchanged. -/
theorem consume_step_rejects_bad_delivery {J B : Type}
    (deserialize : B → Option (List (SensorData J))) (body : B)
    (hbad : deserialize body = none)
    (handler : List (SensorData J) → World J → Except Unit Unit × World J)
    (w : World J) :
    consume_step deserialize handler body w = (Disposition.reject, w) := by
  unfold consume_step
  rw [hbad]

/-- C3 witness: a concrete undeserializable body. -/
theorem consume_step_rejects_bad_delivery_witness :
    ((fun _ : Nat => (none : Option (List (SensorData Nat)))) 0 = none)
    ∧ consume_step (fun _ : Nat => (none : Option (List (SensorData Nat))))
        (fun _ w => (Except.error (), w)) 0 initWorld
        = (Disposition.reject, initWorld) :=
  ⟨rfl,
    consume_step_rejects_bad_delivery
      (fun _ : Nat => (none : Option (List (SensorData Nat)))) 0 rfl
      (fun _ w => (Except.error (), w)) initWorld⟩

/-- C4: a delivery whose body deserializes is acknowledged after the handler
returns, for every handler, in particular one that returns an error or records
per-chunk failures. -/
theorem consume_step_acks_after_handler {J B : Type}
    (deserialize : B → Option (List (SensorData J))) (body : B)
    (sensor_data : List (SensorData J)) (hgood : deserialize body = some sensor_data)
    (handler : List (SensorData J) → World J → Except Unit Unit × World J)
    (w : World J) :
    (consume_step deserialize handler body w).1 = Disposition.ack := by
  unfold consume_step
  rw [hgood]

/-- C4 witness: a concrete deserializable body with a handler that fails. -/
theorem consume_step_acks_after_handler_witness :
    ((fun _ : Nat => some sampleData) 0 = some sampleData)
    ∧ (consume_step (fun _ : Nat => some sampleData)
        (fun _ w => (Except.error (), w)) 0 initWorld).1 = Disposition.ack :=
  ⟨rfl,
    consume_step_acks_after_handler (fun _ : Nat => some sampleData) 0
      sampleData rfl (fun _ w => (Except.error (), w)) initWorld⟩

/-- C5: the publisher's result is exactly the broker confirmation mapping:
`Ack` is success, `Nack` is the rejection error, `NotRequested` is success. -/
theorem send_sensor_data_confirmation_mapping :
    send_sensor_data_outcome Confirmation.Ack = Except.ok ()
    ∧ send_sensor_data_outcome Confirmation.Nack
        = Except.error "Sensor data was not acknowledged"
    ∧ send_sensor_data_outcome Confirmation.NotRequested = Except.ok () :=
  ⟨rfl, rfl, rfl⟩

/-- C8: the stats start at service creation as zero counters with no
timestamp, and both counters are monotonically non-decreasing (never reset)
under every sequence of chunk-processing operations. -/
theorem stats_initial_and_monotone :
    (ProcessingStats.default.processed_messages = 0
      ∧ ProcessingStats.default.failed_messages = 0
      ∧ ProcessingStats.default.last_processed_at = none)
    ∧ ∀ (J : Type) (oracle : Nat → Bool)
        (cs : List (List (SensorReadingInput J))) (w : World J),
        w.stats.processed_messages
            ≤ (processChunks oracle cs w).stats.processed_messages
        ∧ w.stats.failed_messages
            ≤ (processChunks oracle cs w).stats.failed_messages :=
  ⟨⟨rfl, rfl, rfl⟩, fun _ oracle cs w => processChunks_mono oracle cs w⟩

/-- C9: with `batch_size = 0` the chunking step's assert fires for every
non-empty reading sequence (modelled as `none`), while every `batch_size ≥ 1`
lets `process_sensor_data` run to completion. -/
theorem process_sensor_data_zero_batch_size_panics {J : Type}
    (oracle : Nat → Bool) (sensor_data : List (SensorData J))
    (hne : sensor_data ≠ []) (w : World J) :
    process_sensor_data oracle sensor_data 0 w = none
    ∧ ∀ batch_size, 1 ≤ batch_size →
        ∃ w2, process_sensor_data oracle sensor_data batch_size w = some w2 := by
  constructor
  · unfold process_sensor_data
    rcases hN : normalizeAll sensor_data w with ⟨inputs, w1⟩
    simp [chunks]
  · intro batch_size hbs
    rw [process_sensor_data_eq oracle sensor_data batch_size hbs w]
    exact ⟨_, rfl⟩

/-- C9 witness: a concrete non-empty delivery. -/
theorem process_sensor_data_zero_batch_size_panics_witness :
    (sampleData ≠ [])
    ∧ process_sensor_data oracleOk sampleData 0 initWorld = none
    ∧ ∀ batch_size, 1 ≤ batch_size →
        ∃ w2, process_sensor_data oracleOk sampleData batch_size initWorld
          = some w2 :=
  ⟨by simp [sampleData],
    process_sensor_data_zero_batch_size_panics oracleOk sampleData
      (by simp [sampleData]) initWorld⟩

/-- C6 counterexample: for the empty reading sequence (N = 0), processing with
"chunk size N" means chunk size 0, whose chunking assert fires (`none`), while
processing with chunk size 1 completes; so the two runs do not yield the same
final counters as the claim, quantified over every sequence, states. -/
theorem chunking_associativity_counterexample :
    process_sensor_data oracleOk ([] : List (SensorData Nat))
        (List.length ([] : List (SensorData Nat))) initWorld = none
    ∧ process_sensor_data oracleOk ([] : List (SensorData Nat)) 1 initWorld
        = some initWorld := by
  constructor
  · rfl
  · have h1 : chunks 1 ([] : List (SensorReadingInput Nat))
        = some ([] : List (List (SensorReadingInput Nat))) := by
      unfold chunks
      rw [dif_pos Nat.one_pos, chunksPos_nil]
    unfold process_sensor_data
    simp [normalizeAll, h1, processChunks]

/-- C6 (amended to non-empty sequences): for every non-empty reading sequence
and chunk size k ≥ 1, when every insert succeeds, processing in one chunk of
size N and processing in chunks of size k yield the same final
`processed_messages` and `failed_messages`. -/
theorem chunking_associative_nonempty {J : Type} (oracle : Nat → Bool)
    (hor : ∀ n, oracle n = true) (sensor_data : List (SensorData J))
    (hne : sensor_data ≠ []) (k : Nat) (hk : 1 ≤ k) (w : World J) :
    ∃ wOne wMany,
      process_sensor_data oracle sensor_data sensor_data.length w = some wOne
      ∧ process_sensor_data oracle sensor_data k w = some wMany
      ∧ wOne.stats.processed_messages = wMany.stats.processed_messages
      ∧ wOne.stats.failed_messages = wMany.stats.failed_messages := by
  have hN : 0 < sensor_data.length := List.length_pos.mpr hne
  rcases process_ok_stats oracle hor sensor_data sensor_data.length hN w with
    ⟨w1, e1, p1, f1⟩
  rcases process_ok_stats oracle hor sensor_data k hk w with ⟨w2, e2, p2, f2⟩
  exact ⟨w1, w2, e1, e2, by omega, by omega⟩

/-- C6 witness: a concrete two-reading delivery, chunk sizes 2 and 1. -/
theorem chunking_associative_nonempty_witness :
    (∀ n, oracleOk n = true) ∧ sampleData2 ≠ [] ∧ 1 ≤ 1
    ∧ ∃ wOne wMany,
        process_sensor_data oracleOk sampleData2 sampleData2.length initWorld
            = some wOne
        ∧ process_sensor_data oracleOk sampleData2 1 initWorld = some wMany
        ∧ wOne.stats.processed_messages = wMany.stats.processed_messages
        ∧ wOne.stats.failed_messages = wMany.stats.failed_messages :=
  ⟨fun _ => rfl, by simp [sampleData2], Nat.le_refl 1,
    chunking_associative_nonempty oracleOk (fun _ => rfl) sampleData2
      (by simp [sampleData2]) 1 (Nat.le_refl 1) initWorld⟩

/-- C7: `process_sensor_data` first maps each raw reading, in sequence order,
to a normalized input with the same type, name and payload, stamped with the
clock instant of its normalization, then splits the normalized sequence into
consecutive order-preserving chunks of the configured size (their
concatenation is the original sequence; all chunks except possibly the last
have exactly the configured length, the last at most that), and runs the
chunk loop on them. -/
theorem process_sensor_data_normalize_and_chunk {J : Type}
    (oracle : Nat → Bool) (sensor_data : List (SensorData J))
    (batch_size : Nat) (w : World J) (hbs : 1 ≤ batch_size) :
    ((normalizeAll sensor_data w).1).length = sensor_data.length
    ∧ (∀ (i : Nat) (hi : i < sensor_data.length)
        (hi2 : i < ((normalizeAll sensor_data w).1).length),
        ((normalizeAll sensor_data w).1)[i]
          = { sensor_type := (sensor_data[i]).«type»
              sensor_name := (sensor_data[i]).name
              payload := (sensor_data[i]).payload
              timestamp := w.clock + i })
    ∧ ∃ cs, chunks batch_size ((normalizeAll sensor_data w).1) = some cs
        ∧ process_sensor_data oracle sensor_data batch_size w
            = some (processChunks oracle cs ((normalizeAll sensor_data w).2))
        ∧ cs.flatten = (normalizeAll sensor_data w).1
        ∧ (∀ c ∈ cs, c.length ≤ batch_size)
        ∧ (∀ (i : Nat) (hi : i + 1 < cs.length), (cs[i]).length = batch_size) := by
  refine ⟨normalizeAll_length sensor_data w,
    fun i hi hi2 => normalizeAll_getElem sensor_data w i hi hi2,
    chunksPos batch_size hbs ((normalizeAll sensor_data w).1), ?_,
    process_sensor_data_eq oracle sensor_data batch_size hbs w,
    chunksPos_flatten batch_size hbs _,
    chunksPos_length_le_aux batch_size hbs _ _ (Nat.le_refl _),
    fun i hi => chunksPos_getElem_length_aux batch_size hbs _ _ (Nat.le_refl _) i hi⟩
  unfold chunks
  rw [dif_pos (show 0 < batch_size from hbs)]

/-- C7 witness: a concrete two-reading delivery with chunk size 1. -/
theorem process_sensor_data_normalize_and_chunk_witness :
    1 ≤ 1
    ∧ (((normalizeAll sampleData2 initWorld).1).length = sampleData2.length
      ∧ (∀ (i : Nat) (hi : i < sampleData2.length)
          (hi2 : i < ((normalizeAll sampleData2 initWorld).1).length),
          ((normalizeAll sampleData2 initWorld).1)[i]
            = { sensor_type := (sampleData2[i]).«type»
                sensor_name := (sampleData2[i]).name
                payload := (sampleData2[i]).payload
                timestamp := initWorld.clock + i })
      ∧ ∃ cs, chunks 1 ((normalizeAll sampleData2 initWorld).1) = some cs
          ∧ process_sensor_data oracleOk sampleData2 1 initWorld
              = some (processChunks oracleOk cs
                  ((normalizeAll sampleData2 initWorld).2))
          ∧ cs.flatten = (normalizeAll sampleData2 initWorld).1
          ∧ (∀ c ∈ cs, c.length ≤ 1)
          ∧ (∀ (i : Nat) (hi : i + 1 < cs.length), (cs[i]).length = 1)) :=
  ⟨Nat.le_refl 1,
    process_sensor_data_normalize_and_chunk oracleOk sampleData2 1 initWorld
      (Nat.le_refl 1)⟩

/-- C10: `insert_batch_sensor_readings` is not atomic: when the inserts before
position `i` succeed and the insert at position `i > 0` fails, the call
returns an error, exactly the first `i` readings remain persisted in the
store, the readings after position `i` are never attempted (the attempt
counter advances only to `i + 1`), and the calling chunk step counts the
entire chunk as failed. -/
theorem insert_batch_not_atomic {J : Type} (oracle : Nat → Bool)
    (batch : List (SensorReadingInput J)) (i : Nat) (w : World J)
    (hi : i < batch.length) (hpos : 0 < i)
    (hok : ∀ j, j < i → oracle (w.db.attempts + j) = true)
    (hfail : oracle (w.db.attempts + i) = false) :
    (insert_batch_sensor_readings oracle batch w).1 = Except.error ()
    ∧ (∃ newRows, ((insert_batch_sensor_readings oracle batch w).2).db.rows
          = w.db.rows ++ newRows
        ∧ newRows.map SensorReading.toInput = batch.take i
        ∧ newRows.length = i)
    ∧ ((insert_batch_sensor_readings oracle batch w).2).db.attempts
        = w.db.attempts + i + 1
    ∧ (chunkStep oracle w batch).stats.failed_messages
        = w.stats.failed_messages + batch.length
    ∧ (chunkStep oracle w batch).stats.processed_messages
        = w.stats.processed_messages := by
  obtain ⟨herr, hatt, newRows, hrows, htake⟩ :=
    insert_batch_fail_spec oracle batch i w hi hok hfail
  have hlen : newRows.length = i := by
    have h := congrArg List.length htake
    simp only [List.length_map, List.length_take] at h
    omega
  refine ⟨herr, ⟨newRows, hrows, htake, hlen⟩, hatt, ?_, ?_⟩
  all_goals
    rcases hres : insert_batch_sensor_readings oracle batch w with ⟨r, w1⟩
    rw [hres] at herr
    simp only [] at herr
    subst herr
    have hs : w1.stats = w.stats := by
      have h2 := insert_batch_stats oracle batch w
      rw [hres] at h2; exact h2
    simp only [chunkStep, hres]
    simp [hs]

/-- C10 witness: a concrete two-input batch whose second insert fails. -/
theorem insert_batch_not_atomic_witness :
    1 < sampleBatch.length ∧ 0 < 1
    ∧ (∀ j, j < 1 → oracleFirstOnly (initWorld.db.attempts + j) = true)
    ∧ oracleFirstOnly (initWorld.db.attempts + 1) = false
    ∧ ((insert_batch_sensor_readings oracleFirstOnly sampleBatch initWorld).1
          = Except.error ()
      ∧ (∃ newRows,
            ((insert_batch_sensor_readings oracleFirstOnly sampleBatch
                initWorld).2).db.rows
              = initWorld.db.rows ++ newRows
          ∧ newRows.map SensorReading.toInput = sampleBatch.take 1
          ∧ newRows.length = 1)
      ∧ ((insert_batch_sensor_readings oracleFirstOnly sampleBatch
            initWorld).2).db.attempts
          = initWorld.db.attempts + 1 + 1
      ∧ (chunkStep oracleFirstOnly initWorld sampleBatch).stats.failed_messages
          = initWorld.stats.failed_messages + sampleBatch.length
      ∧ (chunkStep oracleFirstOnly initWorld
            sampleBatch).stats.processed_messages
          = initWorld.stats.processed_messages) :=
  ⟨by simp [sampleBatch], Nat.one_pos,
    fun j hj => by
      have hj0 : j = 0 := by omega
      subst hj0
      rfl,
    rfl,
    insert_batch_not_atomic oracleFirstOnly sampleBatch 1 initWorld
      (by simp [sampleBatch]) Nat.one_pos
      (fun j hj => by
        have hj0 : j = 0 := by omega
        subst hj0
        rfl)
      rfl⟩

end Claims

end DataProcessorService
